import Mathlib

/-!
Shallow embedding of the igdm-sentiment-analysis ingestion pipeline
(src/parser.rs, src/analyzer.rs, src/plotter.rs) and verification of the
specification claims about it.

Conventions:
* Rust byte buffers (`Vec<u8>`) are `List Nat` whose elements are < 256.
* Rust `f64` arithmetic is modelled exactly over `ℚ` (the numeric
  transforms use only +, *, / and fused multiply-add, which over the
  reals coincide with the plain operations).
* A Rust panic (out-of-bounds index, failed `unwrap`) is modelled by
  `none` / a dedicated result; fallible returns are `Except`.
-/

namespace Igdm

/-! ### Byte predicates used by the escape-repair loop (parser.rs lines 108-119) -/

/-- `u8::is_ascii_alphanumeric`: `0-9`, `A-Z`, `a-z`. -/
def isAsciiAlphanumeric (b : Nat) : Bool :=
  decide ((48 ≤ b ∧ b ≤ 57) ∨ (65 ≤ b ∧ b ≤ 90) ∨ (97 ≤ b ∧ b ≤ 122))

/-- ASCII hexadecimal digit, the bytes accepted by
`u8::from_str_radix(_, 16)` per character: `0-9`, `A-F`, `a-f`. -/
def isHexDigit (b : Nat) : Bool :=
  decide ((48 ≤ b ∧ b ≤ 57) ∨ (65 ≤ b ∧ b ≤ 70) ∨ (97 ≤ b ∧ b ≤ 102))

/-- Numeric value of an ASCII hex digit byte. -/
def hexVal (b : Nat) : Nat :=
  if 48 ≤ b ∧ b ≤ 57 then b - 48
  else if 65 ≤ b ∧ b ≤ 70 then b - 55
  else b - 87

/-!
### Escape-repair loop (parser.rs lines 97-125)

The Rust loop walks the buffer by index `i`.  At a byte `\\` (92) it
evaluates, left to right, `buffer[i+1] == b'u'`, `buffer[i+2] == b'0'`,
`buffer[i+3] == b'0'`, `buffer[i+4].is_ascii_alphanumeric()`,
`buffer[i+5].is_ascii_alphanumeric()`; each indexing operation panics when
it is out of bounds, and `&&` short-circuits on the first `false`.  On a
full match it parses bytes `i+4..i+6` as hex with
`u8::from_str_radix(..).unwrap()` (panicking when a matched alphanumeric
byte is not a hex digit), pushes the decoded byte and skips the next five
input bytes; otherwise it pushes the byte unchanged and moves on by one.
`none` models a panic.
-/

def decodeRepair : List Nat → Option (List Nat)
  | [] => some []
  | c :: b1 :: b2 :: b3 :: b4 :: b5 :: rest5 =>
    if c = 92 then
      if b1 = 117 ∧ b2 = 48 ∧ b3 = 48 ∧
          isAsciiAlphanumeric b4 ∧ isAsciiAlphanumeric b5 then
        if isHexDigit b4 ∧ isHexDigit b5 then
          (decodeRepair rest5).map (fun l => (hexVal b4 * 16 + hexVal b5) :: l)
        else
          none
      else
        (decodeRepair (b1 :: b2 :: b3 :: b4 :: b5 :: rest5)).map (fun l => c :: l)
    else
      (decodeRepair (b1 :: b2 :: b3 :: b4 :: b5 :: rest5)).map (fun l => c :: l)
  | [c, b1, b2, b3, b4] =>
    if c = 92 then
      if b1 = 117 ∧ b2 = 48 ∧ b3 = 48 ∧ isAsciiAlphanumeric b4 then none
      else (decodeRepair [b1, b2, b3, b4]).map (fun l => c :: l)
    else (decodeRepair [b1, b2, b3, b4]).map (fun l => c :: l)
  | [c, b1, b2, b3] =>
    if c = 92 then
      if b1 = 117 ∧ b2 = 48 ∧ b3 = 48 then none
      else (decodeRepair [b1, b2, b3]).map (fun l => c :: l)
    else (decodeRepair [b1, b2, b3]).map (fun l => c :: l)
  | [c, b1, b2] =>
    if c = 92 then
      if b1 = 117 ∧ b2 = 48 then none
      else (decodeRepair [b1, b2]).map (fun l => c :: l)
    else (decodeRepair [b1, b2]).map (fun l => c :: l)
  | [c, b1] =>
    if c = 92 then
      if b1 = 117 then none
      else (decodeRepair [b1]).map (fun l => c :: l)
    else (decodeRepair [b1]).map (fun l => c :: l)
  | [c] =>
    if c = 92 then none else some [c]

/-- Rust UTF-8 validation (`String::from_utf8`): strict table-driven
check rejecting overlong encodings, surrogates and values above
U+10FFFF. -/
def utf8Valid : List Nat → Bool
  | [] => true
  | b :: rest =>
    if b < 128 then utf8Valid rest
    else if 194 ≤ b ∧ b ≤ 223 then
      match rest with
      | c1 :: rest1 =>
        decide (128 ≤ c1 ∧ c1 ≤ 191) && utf8Valid rest1
      | [] => false
    else if 224 ≤ b ∧ b ≤ 239 then
      match rest with
      | c1 :: c2 :: rest2 =>
        (if b = 224 then decide (160 ≤ c1 ∧ c1 ≤ 191)
         else if b = 237 then decide (128 ≤ c1 ∧ c1 ≤ 159)
         else decide (128 ≤ c1 ∧ c1 ≤ 191)) &&
        decide (128 ≤ c2 ∧ c2 ≤ 191) && utf8Valid rest2
      | _ => false
    else if 240 ≤ b ∧ b ≤ 244 then
      match rest with
      | c1 :: c2 :: c3 :: rest3 =>
        (if b = 240 then decide (144 ≤ c1 ∧ c1 ≤ 191)
         else if b = 244 then decide (128 ≤ c1 ∧ c1 ≤ 143)
         else decide (128 ≤ c1 ∧ c1 ≤ 191)) &&
        decide (128 ≤ c2 ∧ c2 ≤ 191) &&
        decide (128 ≤ c3 ∧ c3 ≤ 191) && utf8Valid rest3
      | _ => false
    else false

/-- The decode stage of `ConversationDirectory::parse` for one buffer:
the repair loop followed by `String::from_utf8(decoded_bytes).unwrap()`
(parser.rs line 127).  `none` models a panic in either step; the source
has no error return on this path. -/
def repairToString (buf : List Nat) : Option (List Nat) :=
  (decodeRepair buf).bind (fun d => if utf8Valid d then some d else none)

/-!
### The export escaping scheme (external to the repository)

Modelled from the spec: the export tool encodes each byte of a UTF-8
encoded non-ASCII code point as the six-byte escape `\u00xy` (lowercase
hex digits) and copies ASCII bytes verbatim (spec sections 4.2 and 8).
-/

/-- Lowercase hex digit byte for a nibble. -/
def hexCharLower (n : Nat) : Nat := if n < 10 then 48 + n else 87 + n

/-- Modelled from the spec: the six-byte escape emitted for one byte. -/
def escapeByte (b : Nat) : List Nat :=
  [92, 117, 48, 48, hexCharLower (b / 16), hexCharLower (b % 16)]

/-- Modelled from the spec: the export encoding — ASCII bytes verbatim,
one escape per non-ASCII byte. -/
def escapeEncode : List Nat → List Nat
  | [] => []
  | b :: rest => (if b < 128 then [b] else escapeByte b) ++ escapeEncode rest

/-- After a literal backslash byte of the original text, the following
original bytes break the escape pattern while still in bounds: the first
deviation from `u`, `0`, `0`, alnum, alnum happens before the text ends.
(`false` means the decoder would either mis-decode a literal escape-shaped
substring or run off the end of the buffer.) -/
def bsSafe : List Nat → Bool
  | [] => false
  | b1 :: t1 =>
    if b1 ≠ 117 then true
    else match t1 with
      | [] => false
      | b2 :: t2 =>
        if b2 ≠ 48 then true
        else match t2 with
          | [] => false
          | b3 :: t3 =>
            if b3 ≠ 48 then true
            else match t3 with
              | [] => false
              | b4 :: t4 =>
                if !isAsciiAlphanumeric b4 then true
                else match t4 with
                  | [] => false
                  | b5 :: _ => !isAsciiAlphanumeric b5

/-- Every literal backslash of the text is followed by bytes that break
the escape pattern in bounds. -/
def safeText : List Nat → Bool
  | [] => true
  | b :: rest => (if b = 92 then bsSafe rest else true) && safeText rest

/-!
### Data model (parser.rs lines 17-35)

`Participant` carries only a name and compares by name, so the
participant set is a `Finset String`.  `Message.content` defaults to the
empty string when absent.
-/

structure Message where
  sender_name : String
  timestamp_ms : Nat
  content : String
deriving DecidableEq

structure ParsedConversation where
  participants : Finset String
  messages : List Message

/-- Sentiment result (analyzer.rs lines 11-17), `f64` fields modelled
over `ℚ`. -/
structure Score where
  pos : ℚ
  neu : ℚ
  neg : ℚ
  compound : ℚ
deriving DecidableEq

/-- Apostrophe character, kept out of string literals. -/
def apos : String := String.singleton (Char.ofNat 39)

/-- The exact suffix of client-generated quiet-mode notices filtered by
the merger (parser.rs line 159). -/
def quietSuffix : String :=
  " wasn" ++ apos ++ "t notified about this message because they" ++ apos ++
    "re in quiet mode."

/-!
### Conversation merger (parser.rs lines 138-172)

Messages of all inputs are concatenated in input order, empty-content
messages and quiet-mode notices are dropped, and the rest is sorted by
`sort_by_key(|m| m.timestamp_ms)`, which is a stable sort.  A stable sort
by a key is extensionally unique, so it is modelled by Mathlib insertion
sort over the timestamp preorder (which the library shows is stable).
-/

/-- The timestamp preorder used as the sort key. -/
def msgLE (a b : Message) : Prop := a.timestamp_ms ≤ b.timestamp_ms

instance : DecidableRel msgLE := fun a b => Nat.decLe a.timestamp_ms b.timestamp_ms

instance : IsTotal Message msgLE := ⟨fun a b => Nat.le_total a.timestamp_ms b.timestamp_ms⟩

instance : IsTrans Message msgLE := ⟨fun _ _ _ => Nat.le_trans⟩

/-- `str::ends_with`: the suffix test, character for character. -/
def contentEndsWith (s suffix : String) : Bool :=
  List.isSuffixOf suffix.toList s.toList

/-- Concatenation of all input message lists with the two merger filters
applied, before sorting (`is_empty` is equality with the empty
string). -/
def filteredMessages (cs : List ParsedConversation) : List Message :=
  (((cs.map ParsedConversation.messages).flatten).filter
      (fun m => !(m.content == ""))).filter
    (fun m => !contentEndsWith m.content quietSuffix)

def ParsedConversation.merge (cs : List ParsedConversation) : ParsedConversation :=
  { participants := cs.foldl (fun acc c => acc ∪ c.participants) ∅
    messages := List.insertionSort msgLE (filteredMessages cs) }

/-!
### Sentiment aggregation (analyzer.rs lines 19-52)

The scoring engine is external; it is a parameter `scorer`.  For each
participant the analyzer filters the merged messages by sender name and
pairs each with its score; the result map is keyed by participant.
-/

/-- The value stored for one participant: their messages, in merged
order, each paired with the score of its content. -/
def scoreMessages (scorer : String → Score) (msgs : List Message) (p : String) :
    List (Message × Score) :=
  (msgs.filter (fun m => m.sender_name == p)).map (fun m => (m, scorer m.content))

def ParsedConversation.analyze (conv : ParsedConversation) (scorer : String → Score) :
    Finset (String × List (Message × Score)) :=
  conv.participants.image (fun p => (p, scoreMessages scorer conv.messages p))

/-!
### Windowed smoothing (plotter.rs lines 207-230)

Timestamps are `usize` (here `Nat`), scores `f64` (here `ℚ`).  The loop
state is (window_start, window_sum, window_count); `none` cases cannot
appear because the only partial operation, `data[0]`, is modelled with
`headD` (the source assumes non-empty input, as the spec notes).
-/

def smoothenLoop (W : Nat) : List (Nat × ℚ) → Nat → ℚ → Nat → List (Nat × ℚ)
  | [], ws, sum, cnt => if 0 < cnt then [(ws, sum / (cnt : ℚ))] else []
  | (t, s) :: rest, ws, sum, cnt =>
    if 0 < cnt ∧ W ≤ t - ws then
      (ws, sum / (cnt : ℚ)) :: smoothenLoop W rest t 0 0
    else
      smoothenLoop W rest ws (sum + s) (cnt + 1)

def smoothen_wrt_time (data : List (Nat × ℚ)) (W : Nat) : List (Nat × ℚ) :=
  smoothenLoop W data (data.headD (0, 0)).1 0 0

/-!
### Least-squares linear regression (plotter.rs lines 232-253)

`mul_add` is exact fused multiply-add, which over exact arithmetic is
plain multiply-then-add; the fold accumulates (Σx, Σy, Σx², Σxy) in
source order.
-/

/-- One step of the source fold: `sum_x + x`, `sum_y + y`,
`x.mul_add(x, sum_x_squared)`, `x.mul_add(y, sum_xy)`. -/
def lsqStep (acc : ℚ × ℚ × ℚ × ℚ) (p : Nat × ℚ) : ℚ × ℚ × ℚ × ℚ :=
  (acc.1 + (p.1 : ℚ), acc.2.1 + p.2,
    (p.1 : ℚ) * (p.1 : ℚ) + acc.2.2.1, (p.1 : ℚ) * p.2 + acc.2.2.2)

def lsqSums (data : List (Nat × ℚ)) : ℚ × ℚ × ℚ × ℚ :=
  data.foldl lsqStep (0, 0, 0, 0)

/-- Σx of a point list. -/
def sumX (data : List (Nat × ℚ)) : ℚ := (data.map (fun p => (p.1 : ℚ))).sum

/-- Σy of a point list. -/
def sumY (data : List (Nat × ℚ)) : ℚ := (data.map (fun p => p.2)).sum

/-- Σx² of a point list. -/
def sumXX (data : List (Nat × ℚ)) : ℚ := (data.map (fun p => (p.1 : ℚ) * p.1)).sum

/-- Σxy of a point list. -/
def sumXY (data : List (Nat × ℚ)) : ℚ := (data.map (fun p => (p.1 : ℚ) * p.2)).sum

def lsqSlope (data : List (Nat × ℚ)) : ℚ :=
  let n : ℚ := data.length
  let s := lsqSums data
  (n * s.2.2.2 - s.1 * s.2.1) / (n * s.2.2.1 - s.1 * s.1)

def lsqIntercept (data : List (Nat × ℚ)) : ℚ :=
  let n : ℚ := data.length
  let s := lsqSums data
  (lsqSlope data * (-s.1) + s.2.1) / n

def least_squares_linear_regression (data : List (Nat × ℚ)) : List (Nat × ℚ) :=
  data.map (fun p => (p.1, (p.1 : ℚ) * lsqSlope data + lsqIntercept data))

/-!
### Directory validation (parser.rs lines 37-80)

The filesystem is abstracted as the listing the code observes: whether
the path is a directory and the entries (name plus whether the entry is
a regular file).  Names are byte lists, as `Path` on Unix operates on
bytes: `Path::file_stem` / `Path::extension` split the final component
at its last dot byte (a sole leading dot yields no extension), and
`OsStr::to_str` (the two `?` exits) demands valid UTF-8.  Crucially,
`str::split_at(8)` is byte-indexed and panics when byte 8 of the stem
is not a UTF-8 character boundary, so the per-entry closure has three
outcomes: keep, skip, or panic; `collect` runs it on every entry, so one
panicking entry aborts the whole validation (`none`).  Note the source
keeps any entry whose *name* matches — despite its comment, it never
tests whether the entry is a file.
-/

/-- UTF-8 bytes of an ASCII string (every code point below 128 encodes
as its own byte). -/
def asciiBytes (s : String) : List Nat := s.toList.map Char.toNat

/-- Index of the last dot byte of a name, if any. -/
def lastDotIdx (s : List Nat) : Option Nat :=
  ((List.range s.length).filter (fun i => s.getD i 0 = 46)).getLast?

/-- `Path::file_stem` on a final path component (byte level, as in the
standard library). -/
def fileStem (s : List Nat) : List Nat :=
  match lastDotIdx s with
  | none => s
  | some i => if i = 0 then s else s.take i

/-- `Path::extension` on a final path component (byte level). -/
def fileExtension (s : List Nat) : Option (List Nat) :=
  match lastDotIdx s with
  | none => none
  | some i => if i = 0 then none else some (s.drop (i + 1))

/-- `str::is_char_boundary k`: true at 0 and at the length, and at any
byte that is not a UTF-8 continuation byte. -/
def isCharBoundary (s : List Nat) (k : Nat) : Bool :=
  if k = 0 then true
  else if s.length ≤ k then decide (k = s.length)
  else decide (s.getD k 0 < 128 ∨ 192 ≤ s.getD k 0)

/-- `str::parse::<u32>`: optional leading plus sign, then one or more
ASCII digits, value below 2^32. -/
def parseU32 (s : List Nat) : Option Nat :=
  let ds := match s with
    | c :: rest => if c = 43 then rest else s
    | [] => s
  if ds.isEmpty then none
  else if ds.all (fun c => decide (48 ≤ c ∧ c ≤ 57)) then
    let v := ds.foldl (fun acc c => acc * 10 + (c - 48)) 0
    if v < 4294967296 then some v else none
  else none

/-- Outcome of the per-entry closure of
`ConversationDirectory::try_from` (parser.rs lines 49-59). -/
inductive EntryScan where
  | keep
  | skip
  | crash
deriving DecidableEq

/-- The per-entry closure: extract the stem (skip unless valid UTF-8),
then the extension (skip when absent or not valid UTF-8), then evaluate
`stem.split_at(8)` — which panics (`crash`) when byte 8 of the stem
falls inside a multi-byte character — and keep exactly the names that
split into `message_` plus a valid `u32` with extension `json`. -/
def scanEntryName (name : List Nat) : EntryScan :=
  let stem := fileStem name
  if utf8Valid stem = false then EntryScan.skip
  else
    match fileExtension name with
    | none => EntryScan.skip
    | some ext =>
      if utf8Valid ext = false then EntryScan.skip
      else
        let k := if 8 ≤ stem.length then 8 else stem.length
        if isCharBoundary stem k = false then EntryScan.crash
        else if stem.take k = asciiBytes "message_" ∧
            (parseU32 (stem.drop k)).isSome ∧ ext = asciiBytes "json" then
          EntryScan.keep
        else EntryScan.skip

structure DirEntry where
  name : List Nat
  isFile : Bool
deriving DecidableEq

structure FsDir where
  isDir : Bool
  entries : List DirEntry

inductive DirError where
  | NotADirectory
  | NoConversationFiles
deriving DecidableEq

/-- `ConversationDirectory::try_from`; `none` models a panic raised
while the `collect` drives the per-entry closure over all entries. -/
def conversationDirectoryTryFrom (d : FsDir) : Option (Except DirError (List DirEntry)) :=
  if d.isDir then
    if d.entries.any (fun e => decide (scanEntryName e.name = EntryScan.crash)) then none
    else
      let files := d.entries.filter (fun e => decide (scanEntryName e.name = EntryScan.keep))
      if files.isEmpty then some (Except.error DirError.NoConversationFiles)
      else some (Except.ok files)
  else some (Except.error DirError.NotADirectory)

/-!
## Helper lemmas
-/

/-- Prepending a non-backslash byte: the loop copies it through. -/
theorem decodeRepair_cons_ne (b : Nat) (hb : b ≠ 92) (l : List Nat) :
    decodeRepair (b :: l) = (decodeRepair l).map (fun t => b :: t) := by
  match l with
  | [] => simp [decodeRepair, hb]
  | [b1] => simp [decodeRepair, hb]
  | [b1, b2] => simp [decodeRepair, hb]
  | [b1, b2, b3] => simp [decodeRepair, hb]
  | [b1, b2, b3, b4] => simp [decodeRepair, hb]
  | b1 :: b2 :: b3 :: b4 :: b5 :: r => simp [decodeRepair, hb]

/-- Prepending a backslash whose tail breaks the pattern in bounds: the
loop copies the backslash through. -/
theorem decodeRepair_cons_92 (l : List Nat) (h : bsSafe l = true) :
    decodeRepair (92 :: l) = (decodeRepair l).map (fun t => 92 :: t) := by
  match l with
  | [] => simp [bsSafe] at h
  | [b1] =>
    simp only [bsSafe] at h
    have hb1 : b1 ≠ 117 := by by_contra hc; simp [hc] at h
    simp [decodeRepair, hb1]
  | [b1, b2] =>
    simp only [bsSafe] at h
    have : ¬(b1 = 117 ∧ b2 = 48) := by
      rintro ⟨rfl, rfl⟩; simp at h
    simp [decodeRepair, this]
  | [b1, b2, b3] =>
    simp only [bsSafe] at h
    have : ¬(b1 = 117 ∧ b2 = 48 ∧ b3 = 48) := by
      rintro ⟨rfl, rfl, rfl⟩; simp at h
    simp [decodeRepair, this]
  | [b1, b2, b3, b4] =>
    simp only [bsSafe] at h
    have : ¬(b1 = 117 ∧ b2 = 48 ∧ b3 = 48 ∧ isAsciiAlphanumeric b4 = true) := by
      rintro ⟨rfl, rfl, rfl, h4⟩; simp [h4] at h
    simp [decodeRepair, this]
  | b1 :: b2 :: b3 :: b4 :: b5 :: r =>
    simp only [bsSafe] at h
    have : ¬(b1 = 117 ∧ b2 = 48 ∧ b3 = 48 ∧ isAsciiAlphanumeric b4 = true ∧
        isAsciiAlphanumeric b5 = true) := by
      rintro ⟨rfl, rfl, rfl, h4, h5⟩; simp [h4, h5] at h
    simp [decodeRepair, this]

/-- Hex digits emitted by the encoder are alphanumeric. -/
theorem hexCharLower_alnum (n : Nat) (h : n < 16) :
    isAsciiAlphanumeric (hexCharLower n) = true := by
  simp only [hexCharLower, isAsciiAlphanumeric, decide_eq_true_eq]
  split <;> omega

/-- Hex digits emitted by the encoder are hex digits. -/
theorem hexCharLower_hex (n : Nat) (h : n < 16) :
    isHexDigit (hexCharLower n) = true := by
  simp only [hexCharLower, isHexDigit, decide_eq_true_eq]
  split <;> omega

/-- Decoding a hex digit emitted by the encoder recovers the nibble. -/
theorem hexVal_hexCharLower (n : Nat) (h : n < 16) : hexVal (hexCharLower n) = n := by
  simp only [hexCharLower, hexVal]
  split <;> split_ifs <;> omega

/-- A safe original tail still breaks the pattern in bounds after
encoding: the first deviating original byte is either copied verbatim or
turns into a leading backslash, and both fail the same check. -/
theorem bsSafe_escapeEncode (B : List Nat) (h : bsSafe B = true) :
    bsSafe (escapeEncode B) = true := by
  cases B with
  | nil => simp [bsSafe] at h
  | cons b1 t1 =>
    by_cases ha1 : b1 < 128
    · rw [escapeEncode, if_pos ha1, List.singleton_append]
      by_cases hu : b1 = 117
      · subst hu
        cases t1 with
        | nil => simp [bsSafe] at h
        | cons b2 t2 =>
          by_cases ha2 : b2 < 128
          · rw [escapeEncode, if_pos ha2, List.singleton_append]
            by_cases h48 : b2 = 48
            · subst h48
              cases t2 with
              | nil => simp [bsSafe] at h
              | cons b3 t3 =>
                by_cases ha3 : b3 < 128
                · rw [escapeEncode, if_pos ha3, List.singleton_append]
                  by_cases h48b : b3 = 48
                  · subst h48b
                    cases t3 with
                    | nil => simp [bsSafe] at h
                    | cons b4 t4 =>
                      by_cases ha4 : b4 < 128
                      · rw [escapeEncode, if_pos ha4, List.singleton_append]
                        by_cases hal4 : isAsciiAlphanumeric b4 = true
                        · cases t4 with
                          | nil => simp [bsSafe, hal4] at h
                          | cons b5 t5 =>
                            have h5 : isAsciiAlphanumeric b5 = false := by
                              simpa [bsSafe, hal4] using h
                            by_cases ha5 : b5 < 128
                            · rw [escapeEncode, if_pos ha5, List.singleton_append]
                              simp [bsSafe, hal4, h5]
                            · rw [escapeEncode, if_neg ha5]
                              simp [escapeByte, bsSafe, hal4, isAsciiAlphanumeric]
                        · simp [bsSafe, hal4]
                      · rw [escapeEncode, if_neg ha4]
                        simp [escapeByte, bsSafe, isAsciiAlphanumeric]
                  · simp [bsSafe, h48b]
                · rw [escapeEncode, if_neg ha3]
                  simp [escapeByte, bsSafe]
            · simp [bsSafe, h48]
          · rw [escapeEncode, if_neg ha2]
            simp [escapeByte, bsSafe]
      · simp [bsSafe, hu]
    · rw [escapeEncode, if_neg ha1]
      simp [escapeByte, bsSafe]

/-- Round trip of the repair loop against the export encoding, for texts
whose literal backslashes all break the escape pattern in bounds. -/
theorem decodeRepair_escapeEncode (B : List Nat) (hb : ∀ b ∈ B, b < 256)
    (hs : safeText B = true) : decodeRepair (escapeEncode B) = some B := by
  induction B with
  | nil => rfl
  | cons b B ih =>
    have hb0 : b < 256 := hb b (List.mem_cons_self b B)
    have hbs' : ∀ x ∈ B, x < 256 := fun x hx => hb x (List.mem_cons_of_mem b hx)
    have hsplit : (if b = 92 then bsSafe B else true) = true ∧ safeText B = true := by
      simpa [safeText, Bool.and_eq_true] using hs
    have ih2 := ih hbs' hsplit.2
    by_cases ha : b < 128
    · rw [escapeEncode, if_pos ha, List.singleton_append]
      by_cases h92 : b = 92
      · subst h92
        have hbs : bsSafe B = true := by simpa using hsplit.1
        rw [decodeRepair_cons_92 _ (bsSafe_escapeEncode B hbs), ih2]
        rfl
      · rw [decodeRepair_cons_ne b h92, ih2]
        rfl
    · have hd : b / 16 < 16 := by omega
      have hm : b % 16 < 16 := Nat.mod_lt b (by norm_num)
      have a1 := hexCharLower_alnum _ hd
      have a2 := hexCharLower_alnum _ hm
      have x1 := hexCharLower_hex _ hd
      have x2 := hexCharLower_hex _ hm
      have v1 := hexVal_hexCharLower _ hd
      have v2 := hexVal_hexCharLower _ hm
      rw [escapeEncode, if_neg ha, escapeByte]
      simp only [List.cons_append, List.nil_append]
      simp [decodeRepair, a1, a2, x1, x2, v1, v2, ih2]
      omega

/-!
## Claim theorems
-/

/-- C1: the windowed-smoothing claim fails on the code.  On the
ascending input (0,0),(10,1) with window 5, the point (10,1) closes the
first window but is then discarded: it is averaged into no window and
the window it starts is never emitted, so the output is [(0,0)] rather
than a partition of both input points into windows. -/
theorem smoothen_wrt_time_drops_closing_point :
    smoothen_wrt_time [(0, 0), (10, 1)] 5 = [(0, 0)] := by
  simp [smoothen_wrt_time, smoothenLoop]

/-- C2: the escape-repair loop panics (modelled as `none`) when a match
candidate backslash stands within the last 5 bytes and the remaining
bytes keep matching the pattern: the source indexes `buffer[i + 1]`
with no bounds check instead of copying the trailing byte through. -/
theorem decodeRepair_panics_on_trailing_backslash :
    decodeRepair [92] = none := by decide

/-- C3: a complete escape such as `ð` is replaced by its byte value
(all six input bytes consumed), but backslash-u-0-0 followed by
alphanumeric non-hex characters such as `g` passes the alphanumeric
guard and then panics in `u8::from_str_radix(..).unwrap()` (modelled as
`none`) instead of being copied through. -/
theorem decodeRepair_nonhex_alphanumeric_panics :
    decodeRepair [92, 117, 48, 48, 102, 48] = some [240] ∧
      decodeRepair [92, 117, 48, 48, 103, 103] = none := by decide

/-- C7: on the buffer `ÿ` the repair loop succeeds with the single
byte 0xFF, which is not valid UTF-8; the source then evaluates
`String::from_utf8(decoded_bytes).unwrap()` and panics (modelled as
`none`) instead of returning an `InvalidEncoding` error to the
caller. -/
theorem repairToString_panics_on_invalid_utf8 :
    decodeRepair [92, 117, 48, 48, 102, 102] = some [255] ∧
      utf8Valid [255] = false ∧
      repairToString [92, 117, 48, 48, 102, 102] = none := by decide

/-- C5 counterexample: the all-ASCII text `ª` (backslash, u, 0, 0,
a, a) encodes to itself, yet decoding does not return it: the decoder
consumes the literal escape-shaped substring, so the round trip fails on
a text that contains only ASCII characters. -/
theorem roundtrip_fails_on_literal_escape :
    escapeEncode [92, 117, 48, 48, 97, 97] = [92, 117, 48, 48, 97, 97] ∧
      utf8Valid [92, 117, 48, 48, 97, 97] = true ∧
      repairToString (escapeEncode [92, 117, 48, 48, 97, 97]) ≠
        some [92, 117, 48, 48, 97, 97] := by decide

/-- C5 amended: for every valid-UTF-8 byte sequence in which each
literal backslash is followed, within the text, by bytes that break the
escape pattern (so no literal substring backslash-u-0-0-alnum-alnum and
no trailing truncated prefix of one), encoding with the export scheme
and then running the repair decoder plus UTF-8 validation reproduces
the original exactly. -/
theorem repairToString_escapeEncode_roundtrip (B : List Nat)
    (hb : ∀ b ∈ B, b < 256) (hs : safeText B = true)
    (hu : utf8Valid B = true) :
    repairToString (escapeEncode B) = some B := by
  rw [repairToString, decodeRepair_escapeEncode B hb hs]
  simp [hu]

/-- Witness for the amended C5 round trip at the text backslash, b,
e-acute (UTF-8 bytes 195, 169). -/
theorem repairToString_escapeEncode_roundtrip_witness :
    ((∀ b ∈ [92, 98, 195, 169], b < 256) ∧
        safeText [92, 98, 195, 169] = true ∧
        utf8Valid [92, 98, 195, 169] = true) ∧
      repairToString (escapeEncode [92, 98, 195, 169]) =
        some [92, 98, 195, 169] :=
  ⟨⟨by decide, by decide, by decide⟩,
    repairToString_escapeEncode_roundtrip [92, 98, 195, 169]
      (by decide) (by decide) (by decide)⟩

/-- Membership in the participant fold of the merger. -/
theorem mem_foldl_union (p : String) (cs : List ParsedConversation) (init : Finset String) :
    p ∈ cs.foldl (fun acc c => acc ∪ c.participants) init ↔
      p ∈ init ∨ ∃ c ∈ cs, p ∈ c.participants := by
  induction cs generalizing init with
  | nil => simp
  | cons c cs ih =>
    simp only [List.foldl_cons, ih, Finset.mem_union, List.mem_cons]
    aesop

/-- Insertion sort by timestamp is stable: it does not reorder messages
with equal timestamps, so the surviving messages of one timestamp appear
in input order. -/
theorem filter_timestamp_insertionSort (t : Nat) (l : List Message) :
    (List.insertionSort msgLE l).filter (fun m => decide (m.timestamp_ms = t)) =
      l.filter (fun m => decide (m.timestamp_ms = t)) := by
  induction l with
  | nil => rfl
  | cons a l ih =>
    have key : ((List.insertionSort msgLE l).takeWhile fun b => decide ¬(msgLE a b)) ++
        ((List.insertionSort msgLE l).dropWhile fun b => decide ¬(msgLE a b)) =
        List.insertionSort msgLE l :=
      List.takeWhile_append_dropWhile _ _
    have hsplit := congrArg (List.filter (fun m => decide (m.timestamp_ms = t))) key
    rw [List.filter_append] at hsplit
    rw [List.insertionSort, List.orderedInsert_eq_take_drop, List.filter_append]
    by_cases ha : a.timestamp_ms = t
    · have h1 : (((List.insertionSort msgLE l).takeWhile fun b => decide ¬(msgLE a b)).filter
          (fun m => decide (m.timestamp_ms = t))) = [] := by
        apply List.filter_eq_nil_iff.mpr
        intro x hx
        have hle := List.mem_takeWhile_imp hx
        simp only [decide_eq_true_eq] at hle ⊢
        intro hxt
        exact hle (by simp [msgLE, ha, hxt])
      rw [h1, List.nil_append] at hsplit
      rw [h1, List.nil_append]
      have hpa : (decide (a.timestamp_ms = t)) = true := by simp [ha]
      simp only [List.filter_cons, hpa, if_true]
      rw [hsplit, ih]
    · have hpa : (decide (a.timestamp_ms = t)) = false := by simp [ha]
      simp only [List.filter_cons, hpa, Bool.false_eq_true, if_false]
      rw [hsplit, ih]

/-- C4: merger output is sorted non-decreasing by timestamp, the sort is
stable (messages of any fixed timestamp keep the filtered input order),
no surviving message has empty content or the quiet-mode suffix, and the
participants are exactly the union of the input participant sets (the
set representation itself excludes duplicates). -/
theorem merge_spec (cs : List ParsedConversation) :
    List.Pairwise (fun a b : Message => a.timestamp_ms ≤ b.timestamp_ms)
        (ParsedConversation.merge cs).messages ∧
      (∀ t : Nat,
        (ParsedConversation.merge cs).messages.filter
            (fun m => decide (m.timestamp_ms = t)) =
          (filteredMessages cs).filter (fun m => decide (m.timestamp_ms = t))) ∧
      (∀ m ∈ (ParsedConversation.merge cs).messages,
        (m.content == "") = false ∧ contentEndsWith m.content quietSuffix = false) ∧
      (∀ p : String,
        p ∈ (ParsedConversation.merge cs).participants ↔ ∃ c ∈ cs, p ∈ c.participants) := by
  refine ⟨?_, ?_, ?_, ?_⟩
  · exact List.sorted_insertionSort msgLE (filteredMessages cs)
  · intro t
    exact filter_timestamp_insertionSort t (filteredMessages cs)
  · intro m hm
    have hmem : m ∈ filteredMessages cs :=
      (List.perm_insertionSort msgLE (filteredMessages cs)).mem_iff.mp hm
    unfold filteredMessages at hmem
    rw [List.mem_filter] at hmem
    obtain ⟨hmem1, hq⟩ := hmem
    rw [List.mem_filter] at hmem1
    obtain ⟨_, he⟩ := hmem1
    constructor
    · simpa using he
    · simpa using hq
  · intro p
    show p ∈ cs.foldl (fun acc c => acc ∪ c.participants) ∅ ↔ _
    rw [mem_foldl_union]
    simp

/-- Witness for C4 at a one-conversation input. -/
theorem merge_spec_witness :
    List.Pairwise (fun a b : Message => a.timestamp_ms ≤ b.timestamp_ms)
      (ParsedConversation.merge
        [ParsedConversation.mk {"A"} [Message.mk "A" 2 "x"]]).messages :=
  (merge_spec [ParsedConversation.mk {"A"} [Message.mk "A" 2 "x"]]).1

/-- C9 counterexample: a message present in two input files (same
sender, timestamp and content) occurs twice in the merged conversation,
not once. -/
theorem merge_keeps_duplicate_messages :
    (ParsedConversation.merge
        [ParsedConversation.mk {"A"} [Message.mk "A" 1 "hi"],
          ParsedConversation.mk {"A"} [Message.mk "A" 1 "hi"]]).messages.count
      (Message.mk "A" 1 "hi") = 2 := by decide

/-- C9 amended: the merger does not deduplicate messages: every message
occurs in the merged output exactly as often as it survives the two
content filters across all inputs. -/
theorem merge_preserves_multiplicity (cs : List ParsedConversation) (m : Message) :
    (ParsedConversation.merge cs).messages.count m = (filteredMessages cs).count m :=
  (List.perm_insertionSort msgLE (filteredMessages cs)).count_eq m

/-- C10: the analysis has exactly one entry per participant (the entry
of participant p is the list of messages with sender p, in merged order,
paired with their scores); a message whose sender matches no participant
appears in no entry; and the analysis only depends on the scorer values
at messages whose sender is a participant, so such messages are never
passed to the scoring function. -/
theorem analyze_spec (conv : ParsedConversation) (scorer : String → Score) :
    (∀ p l, (p, l) ∈ conv.analyze scorer ↔
        p ∈ conv.participants ∧ l = scoreMessages scorer conv.messages p) ∧
      (∀ m ∈ conv.messages, m.sender_name ∉ conv.participants →
        ∀ pr ∈ conv.analyze scorer, ∀ q ∈ pr.2, q.1 ≠ m) ∧
      (∀ scorer2 : String → Score,
        (∀ m ∈ conv.messages, m.sender_name ∈ conv.participants →
          scorer2 m.content = scorer m.content) →
        conv.analyze scorer2 = conv.analyze scorer) := by
  refine ⟨?_, ?_, ?_⟩
  · intro p l
    simp only [ParsedConversation.analyze, Finset.mem_image, Prod.mk.injEq]
    constructor
    · rintro ⟨a, ha, rfl, rfl⟩
      exact ⟨ha, rfl⟩
    · rintro ⟨hp, rfl⟩
      exact ⟨p, hp, rfl, rfl⟩
  · intro m _hm hns pr hpr q hq hqm
    simp only [ParsedConversation.analyze, Finset.mem_image] at hpr
    obtain ⟨a, ha, rfl⟩ := hpr
    simp only [scoreMessages, List.mem_map] at hq
    obtain ⟨m0, hm0, rfl⟩ := hq
    have hsend : m0.sender_name == a := (List.mem_filter.mp hm0).2
    apply hns
    have : m0.sender_name = a := by simpa using hsend
    rw [← hqm, this]
    exact ha
  · intro scorer2 hsc
    apply Finset.image_congr
    intro p hp
    simp only
    congr 1
    apply List.map_congr_left
    intro m hm
    have hmem : m ∈ conv.messages := (List.mem_filter.mp hm).1
    have hsend : m.sender_name = p := by simpa using (List.mem_filter.mp hm).2
    rw [hsc m hmem (by rw [hsend]; exact hp)]

/-- The source fold computes the four sums. -/
theorem lsqSums_go (l : List (Nat × ℚ)) :
    ∀ a b c d : ℚ, l.foldl lsqStep (a, b, c, d) =
      (a + sumX l, b + sumY l, c + sumXX l, d + sumXY l) := by
  induction l with
  | nil => intro a b c d; simp [sumX, sumY, sumXX, sumXY]
  | cons p l ih =>
    intro a b c d
    simp only [List.foldl_cons, lsqStep, ih, sumX, sumY, sumXX, sumXY,
      List.map_cons, List.sum_cons, Prod.mk.injEq]
    refine ⟨by ring, by ring, by ring, by ring⟩

theorem lsqSums_eq (data : List (Nat × ℚ)) :
    lsqSums data = (sumX data, sumY data, sumXX data, sumXY data) := by
  have h := lsqSums_go data 0 0 0 0
  simpa [lsqSums] using h

/-- Σy over points on the line y = 2x + 3. -/
theorem sumY_line (data : List (Nat × ℚ))
    (h : ∀ p ∈ data, p.2 = 2 * (p.1 : ℚ) + 3) :
    sumY data = 2 * sumX data + 3 * data.length := by
  induction data with
  | nil => simp [sumX, sumY]
  | cons p l ih =>
    have hp := h p (List.mem_cons_self p l)
    have hl := ih (fun q hq => h q (List.mem_cons_of_mem p hq))
    simp only [sumY, sumX, List.map_cons, List.sum_cons, List.length_cons] at *
    rw [hp, hl]
    push_cast
    ring

/-- Σxy over points on the line y = 2x + 3. -/
theorem sumXY_line (data : List (Nat × ℚ))
    (h : ∀ p ∈ data, p.2 = 2 * (p.1 : ℚ) + 3) :
    sumXY data = 2 * sumXX data + 3 * sumX data := by
  induction data with
  | nil => simp [sumX, sumXX, sumXY]
  | cons p l ih =>
    have hp := h p (List.mem_cons_self p l)
    have hl := ih (fun q hq => h q (List.mem_cons_of_mem p hq))
    simp only [sumXY, sumXX, sumX, List.map_cons, List.sum_cons] at *
    rw [hp, hl]
    ring

/-- C6: on points lying exactly on y = 2x + 3 (with nonzero normal
equation denominator, i.e. not all timestamps equal), the regression
computes slope 2 and intercept 3 exactly — hence within any positive
tolerance — and returns one point per input timestamp with the fitted
value m·x + b = 2x + 3 at that timestamp. -/
theorem lsq_fits_line (data : List (Nat × ℚ))
    (hline : ∀ p ∈ data, p.2 = 2 * (p.1 : ℚ) + 3)
    (hden : (data.length : ℚ) * sumXX data - sumX data * sumX data ≠ 0) :
    lsqSlope data = 2 ∧ lsqIntercept data = 3 ∧
      least_squares_linear_regression data =
        data.map (fun p => (p.1, 2 * (p.1 : ℚ) + 3)) := by
  have hy := sumY_line data hline
  have hxy := sumXY_line data hline
  have hn : (data.length : ℚ) ≠ 0 := by
    intro h0
    apply hden
    have hlen : data.length = 0 := by exact_mod_cast h0
    have hdata : data = [] := List.length_eq_zero.mp hlen
    subst hdata
    simp [sumXX, sumX]
  have hm : lsqSlope data = 2 := by
    simp only [lsqSlope, lsqSums_eq]
    rw [hy, hxy]
    have hnum : (data.length : ℚ) * (2 * sumXX data + 3 * sumX data) -
        sumX data * (2 * sumX data + 3 * data.length) =
        2 * ((data.length : ℚ) * sumXX data - sumX data * sumX data) := by
      ring
    rw [hnum, mul_div_assoc, div_self hden, mul_one]
  have hb : lsqIntercept data = 3 := by
    simp only [lsqIntercept, lsqSums_eq]
    rw [hm, hy]
    have hnum : (2 : ℚ) * (-sumX data) + (2 * sumX data + 3 * data.length) =
        3 * data.length := by
      ring
    rw [hnum, mul_div_assoc, div_self hn, mul_one]
  refine ⟨hm, hb, ?_⟩
  rw [least_squares_linear_regression]
  apply List.map_congr_left
  intro p _hp
  rw [hm, hb]
  exact Prod.ext rfl (by ring)

/-- Witness for C6 at the two points (0,3), (1,5) on y = 2x + 3. -/
theorem lsq_fits_line_witness :
    ((∀ p ∈ [((0 : Nat), (3 : ℚ)), (1, 5)], p.2 = 2 * (p.1 : ℚ) + 3) ∧
        (([((0 : Nat), (3 : ℚ)), (1, 5)].length : ℚ) *
            sumXX [((0 : Nat), (3 : ℚ)), (1, 5)] -
          sumX [((0 : Nat), (3 : ℚ)), (1, 5)] *
            sumX [((0 : Nat), (3 : ℚ)), (1, 5)] ≠ 0)) ∧
      lsqSlope [((0 : Nat), (3 : ℚ)), (1, 5)] = 2 ∧
      lsqIntercept [((0 : Nat), (3 : ℚ)), (1, 5)] = 3 ∧
      least_squares_linear_regression [((0 : Nat), (3 : ℚ)), (1, 5)] =
        [((0 : Nat), (3 : ℚ)), (1, 5)].map (fun p => (p.1, 2 * (p.1 : ℚ) + 3)) :=
  ⟨⟨by norm_num, by norm_num [sumXX, sumX]⟩,
    lsq_fits_line [((0 : Nat), (3 : ℚ)), (1, 5)] (by norm_num)
      (by norm_num [sumXX, sumX])⟩

/-- Witness for C10: on a conversation with participant A and messages
from A and from the non-participant B, the entry of A is exactly the
scored message of A. -/
theorem analyze_spec_witness :
    ("A", [(Message.mk "A" 5 "yo", Score.mk 0 0 0 0)]) ∈
      ParsedConversation.analyze
        (ParsedConversation.mk {"A"} [Message.mk "A" 5 "yo", Message.mk "B" 6 "hm"])
        (fun _ => Score.mk 0 0 0 0) :=
  ((analyze_spec
      (ParsedConversation.mk {"A"} [Message.mk "A" 5 "yo", Message.mk "B" 6 "hm"])
      (fun _ => Score.mk 0 0 0 0)).1 "A" [(Message.mk "A" 5 "yo", Score.mk 0 0 0 0)]).mpr
    ⟨by decide, by decide⟩

/-- C8 counterexample, three divergences.  First: the directory holding
only the file `message_4294967296.json` — a name of the form
message_digits.json, with 2^32 as the number — is rejected with
NoConversationFiles because the source parses the digits as `u32` and
2^32 overflows.  Second: a directory entry that is not a regular file
but is named `message_1.json` is kept, not skipped, because the source
never tests the entry kind.  Third: a directory holding a file named
abcdef-euro-_1.json (bytes 97..102, 226 130 172, 95, 49, then .json),
whose stem has a continuation byte at byte index 8, makes the whole
validation panic in `str::split_at` (`none`) instead of silently
skipping the non-matching name. -/
theorem tryFrom_counterexample :
    conversationDirectoryTryFrom
        (FsDir.mk true [DirEntry.mk (asciiBytes "message_4294967296.json") true]) =
      some (Except.error DirError.NoConversationFiles) ∧
      asciiBytes "message_4294967296.json" =
        asciiBytes "message_" ++ asciiBytes "4294967296" ++ asciiBytes ".json" ∧
      ((asciiBytes "4294967296").all (fun c => decide (48 ≤ c ∧ c ≤ 57))) = true ∧
      conversationDirectoryTryFrom
          (FsDir.mk true [DirEntry.mk (asciiBytes "message_1.json") false]) =
        some (Except.ok [DirEntry.mk (asciiBytes "message_1.json") false]) ∧
      conversationDirectoryTryFrom
          (FsDir.mk true
            [DirEntry.mk
              [97, 98, 99, 100, 101, 102, 226, 130, 172, 95, 49, 46, 106, 115, 111, 110]
              true]) = none := by
  refine ⟨rfl, by decide, by decide, rfl, rfl⟩

/-- C8 amended: NotADirectory exactly when the path is not a directory.
The per-entry name filter has three outcomes: entries without a valid
UTF-8 stem and extension are skipped, but splitting the stem at byte 8
panics when that byte falls inside a multi-byte character, and one such
entry aborts the whole validation by panic.  Absent panics,
NoConversationFiles exactly when no entry name matches
message_digits.json with the digits parsing as a 32-bit unsigned
integer (so the digit count is bounded by the u32 range, and a leading
plus sign is tolerated); entries are filtered by name only, so a
non-file entry with a matching name is included rather than skipped; on
success the result is exactly the name-matching entries.  The example
names behave as the claim lists. -/
theorem tryFrom_spec (d : FsDir) :
    (conversationDirectoryTryFrom d = some (Except.error DirError.NotADirectory) ↔
        d.isDir = false) ∧
      (conversationDirectoryTryFrom d = none ↔
        d.isDir = true ∧ ∃ e ∈ d.entries, scanEntryName e.name = EntryScan.crash) ∧
      (conversationDirectoryTryFrom d = some (Except.error DirError.NoConversationFiles) ↔
        d.isDir = true ∧ (∀ e ∈ d.entries, scanEntryName e.name ≠ EntryScan.crash) ∧
          d.entries.filter (fun e => decide (scanEntryName e.name = EntryScan.keep)) = []) ∧
      (∀ fs, conversationDirectoryTryFrom d = some (Except.ok fs) ↔
        d.isDir = true ∧ (∀ e ∈ d.entries, scanEntryName e.name ≠ EntryScan.crash) ∧
          fs = d.entries.filter (fun e => decide (scanEntryName e.name = EntryScan.keep)) ∧
          fs ≠ []) ∧
      scanEntryName (asciiBytes "message_7.json") = EntryScan.keep ∧
      scanEntryName (asciiBytes "message_003.json") = EntryScan.keep ∧
      scanEntryName (asciiBytes "messages_1.json") = EntryScan.skip ∧
      scanEntryName (asciiBytes "message_a.json") = EntryScan.skip ∧
      scanEntryName (asciiBytes "message_1.txt") = EntryScan.skip := by
  refine ⟨?_, ?_, ?_, ?_, by decide, by decide, by decide, by decide, by decide⟩
  · by_cases hdir : d.isDir
    · simp only [conversationDirectoryTryFrom, hdir, if_true]
      by_cases hpan : d.entries.any (fun e => decide (scanEntryName e.name = EntryScan.crash))
      · simp [hpan, hdir]
      · simp only [Bool.not_eq_true] at hpan
        simp only [hpan, Bool.false_eq_true, if_false]
        split <;> simp [hdir]
    · simp [conversationDirectoryTryFrom, hdir]
  · by_cases hdir : d.isDir
    · simp only [conversationDirectoryTryFrom, hdir, if_true]
      by_cases hpan : d.entries.any (fun e => decide (scanEntryName e.name = EntryScan.crash))
      · have hex : ∃ e ∈ d.entries, scanEntryName e.name = EntryScan.crash := by
          simpa [List.any_eq_true] using hpan
        simp [hpan, hdir, hex]
      · have hne : ¬ ∃ e ∈ d.entries, scanEntryName e.name = EntryScan.crash := by
          simpa [List.any_eq_true] using hpan
        simp only [Bool.not_eq_true] at hpan
        simp only [hpan, Bool.false_eq_true, if_false]
        split <;> simp [hne]
    · simp [conversationDirectoryTryFrom, hdir]
  · by_cases hdir : d.isDir
    · simp only [conversationDirectoryTryFrom, hdir, if_true]
      by_cases hpan : d.entries.any (fun e => decide (scanEntryName e.name = EntryScan.crash))
      · have hex : ∃ e ∈ d.entries, scanEntryName e.name = EntryScan.crash := by
          simpa [List.any_eq_true] using hpan
        obtain ⟨e, he, hp⟩ := hex
        simp only [hpan, if_true]
        constructor
        · intro h
          exact absurd h (by simp)
        · rintro ⟨_, hall, _⟩
          exact absurd hp (hall e he)
      · have hall : ∀ e ∈ d.entries, scanEntryName e.name ≠ EntryScan.crash := by
          intro e he
          have hne : ¬ ∃ x ∈ d.entries, scanEntryName x.name = EntryScan.crash := by
            simpa [List.any_eq_true] using hpan
          exact fun hp => hne ⟨e, he, hp⟩
        simp only [Bool.not_eq_true] at hpan
        simp only [hpan, Bool.false_eq_true, if_false]
        by_cases hemp :
            (d.entries.filter (fun e => decide (scanEntryName e.name = EntryScan.keep))).isEmpty
        · simp [hemp, hdir, List.isEmpty_iff.mp hemp]
          exact hall
        · simp only [Bool.not_eq_true] at hemp
          have hnil :
              d.entries.filter (fun e => decide (scanEntryName e.name = EntryScan.keep)) ≠ [] := by
            intro hcontra
            rw [hcontra] at hemp
            simp at hemp
          simp [hemp, hdir, hall, hnil]
    · simp [conversationDirectoryTryFrom, hdir]
  · intro fs
    by_cases hdir : d.isDir
    · by_cases hpan : d.entries.any (fun e => decide (scanEntryName e.name = EntryScan.crash))
      · have hex : ∃ e ∈ d.entries, scanEntryName e.name = EntryScan.crash := by
          simpa [List.any_eq_true] using hpan
        obtain ⟨e, he, hp⟩ := hex
        simp only [conversationDirectoryTryFrom, hdir, if_true, hpan]
        constructor
        · intro h
          exact absurd h (by simp)
        · rintro ⟨_, hall, _⟩
          exact absurd hp (hall e he)
      · have hall : ∀ e ∈ d.entries, scanEntryName e.name ≠ EntryScan.crash := by
          intro e he
          have hne : ¬ ∃ x ∈ d.entries, scanEntryName x.name = EntryScan.crash := by
            simpa [List.any_eq_true] using hpan
          exact fun hp => hne ⟨e, he, hp⟩
        by_cases hemp :
            (d.entries.filter (fun e => decide (scanEntryName e.name = EntryScan.keep))).isEmpty
        · have hnil := List.isEmpty_iff.mp hemp
          simp [conversationDirectoryTryFrom, hdir, hpan, hemp, hnil, hall]
        · simp only [Bool.not_eq_true] at hemp hpan
          have hnil :
              d.entries.filter (fun e => decide (scanEntryName e.name = EntryScan.keep)) ≠ [] := by
            intro hcontra
            rw [hcontra] at hemp
            simp at hemp
          have hok : conversationDirectoryTryFrom d =
              some (Except.ok
                (d.entries.filter (fun e => decide (scanEntryName e.name = EntryScan.keep)))) := by
            simp [conversationDirectoryTryFrom, hdir, hpan, hemp]
          rw [hok]
          constructor
          · intro h
            injection h with h
            injection h with h
            refine ⟨hdir, hall, h.symm, ?_⟩
            intro hfs
            apply hnil
            rw [h]
            exact hfs
          · rintro ⟨_, _, rfl, _⟩
            rfl
    · simp [conversationDirectoryTryFrom, hdir]

/-- Witness for C8 at a path that is not a directory. -/
theorem tryFrom_spec_witness :
    conversationDirectoryTryFrom (FsDir.mk false []) =
      some (Except.error DirError.NotADirectory) :=
  (tryFrom_spec (FsDir.mk false [])).1.mpr rfl

end Igdm
